import Mathlib

/-!
# Verification of the segment-chain authentication core

Shallow embedding of `segment_manifest.py` and `segment_processor.py`
(the C2PA segment-chain service).  Python floats are modelled as `ℚ`,
Python `int` as `Int`, `Optional[T]` as `Option T`, and JSON-able
payloads (`Dict[str, Any]`) as association lists over a small JSON value
type.  The SHA-256 digest is kept abstract as a parameter `H : String →
String`; every theorem about hashing holds for an arbitrary digest
function, and the master-hash pre-image (the string fed to the digest)
is modelled exactly.
-/

namespace C2PA

/-- JSON-like values, used for the `Any`-typed payloads
(`deepfake_metadata` entries and the C2PA manifest template). -/
inductive JVal where
  | null : JVal
  | bool (b : Bool) : JVal
  | num (q : ℚ) : JVal
  | str (s : String) : JVal
  | arr (xs : List JVal) : JVal
  | obj (fields : List (String × JVal)) : JVal
deriving Repr

/-- A JSON object body: Python `Dict[str, Any]`. -/
abbrev JObj := List (String × JVal)

/-- `SegmentInfo` (pydantic model, `segment_manifest.py`).  `created_at`
is the ISO timestamp string. -/
structure SegmentInfo where
  segment_id : Int
  start_time : ℚ
  end_time : ℚ
  duration : ℚ
  file_path : String
  file_hash : String
  c2pa_signature : Option String
  previous_hash : Option String
  deepfake_score : Option ℚ
  deepfake_model : Option String
  deepfake_confidence : Option ℚ
  deepfake_metadata : Option JObj
  created_at : String
deriving Repr

/-- `SegmentChainManifest` (pydantic model, `segment_manifest.py`). -/
structure SegmentChainManifest where
  video_id : String
  original_filename : String
  total_segments : Int
  segment_duration : ℚ
  total_duration : ℚ
  master_hash : String
  chain_valid : Bool
  segments : List SegmentInfo
  c2pa_manifest_template : JObj
  created_at : String
  processing_version : String
deriving Repr

/-- The chunk contributed by one segment to the master-hash pre-image:
`f"{segment_id}:{file_hash}:{previous_hash or ''}"`.  (Python's
`x or ''` yields `''` both for `None` and for `''`, which coincides with
`Option.getD` here.) -/
def segChunk (s : SegmentInfo) : String :=
  toString s.segment_id ++ ":" ++ s.file_hash ++ ":" ++ s.previous_hash.getD ""

/-- The full pre-image accumulated by `calculate_master_hash`'s loop
(`hash_input += ...`). -/
def masterPreimage (segs : List SegmentInfo) : String :=
  segs.foldl (fun acc s => acc ++ segChunk s) ""

/-- `SegmentChainManifest.calculate_master_hash`, with the SHA-256 hex
digest abstracted as `H`. -/
def calculate_master_hash (H : String → String) (m : SegmentChainManifest) : String :=
  H (masterPreimage m.segments)

/-- The `i > 0` part of `validate_chain`'s link loop: each segment's
`previous_hash` must equal the previous segment's `file_hash` (a `None`
`previous_hash` fails the `!=` comparison against a string, as in
Python). -/
def chainFrom (prev : SegmentInfo) : List SegmentInfo → Bool
  | [] => true
  | s :: rest => (s.previous_hash == some prev.file_hash) && chainFrom s rest

/-- `SegmentChainManifest.validate_chain`: false on an empty segment
list; then the recomputed master hash must equal the stored one;
segment 0 must have `previous_hash is None`; every later segment must
link to its predecessor's `file_hash`. -/
def validate_chain (H : String → String) (m : SegmentChainManifest) : Bool :=
  match m.segments with
  | [] => false
  | s0 :: rest =>
    (calculate_master_hash H m == m.master_hash) &&
    (s0.previous_hash == none) &&
    chainFrom s0 rest

/-- One deepfake score entry (a Python dict).  A field is `none` when
the key is absent from the dict. -/
structure ScoreEntry where
  segment_id : Option Int
  score : Option ℚ
  model : Option String
  confidence : Option ℚ
  metadata : Option JObj
deriving Repr

/-- Zero-padding of `f"{i:04d}"` for the signed-segment filename. -/
def pad4 (i : Nat) : String :=
  let s := toString i
  String.mk (List.replicate (4 - s.length) '0') ++ s

/-- Step 4 of `SegmentAuthenticator.process_and_sign_video`: build the
`SegmentInfo` list from the ordered per-segment file hashes, threading
`previous_hash` (`None` for segment 0, then the prior `file_hash`), and
looking up the first score entry whose `segment_id` equals the index
(`next(..., {})`: on no match every `.get` returns `None`). -/
def assembleSegments (outputDir now : String) (segDur totalDur : ℚ)
    (scores : List ScoreEntry) :
    Nat → Option String → List String → List SegmentInfo
  | _, _, [] => []
  | i, prev, h :: rest =>
    let start : ℚ := (i : ℚ) * segDur
    let endT : ℚ := min (((i : ℚ) + 1) * segDur) totalDur
    let entry : Option ScoreEntry := scores.find? (fun e => e.segment_id == some (i : Int))
    { segment_id := (i : Int)
      start_time := start
      end_time := endT
      duration := endT - start
      file_path := outputDir ++ "/signed_segment_" ++ pad4 i ++ ".mp4"
      file_hash := h
      c2pa_signature := some ("c2pa_signature_segment_" ++ toString (i : Int))
      previous_hash := prev
      deepfake_score := entry.bind (·.score)
      deepfake_model := entry.bind (·.model)
      deepfake_confidence := entry.bind (·.confidence)
      deepfake_metadata := entry.bind (·.metadata)
      created_at := now } :: assembleSegments outputDir now segDur totalDur scores (i + 1) (some h) rest

/-- Steps 4–6 of `process_and_sign_video`: assemble the segment list,
create the manifest with `master_hash = ""` / `chain_valid = False`,
then overwrite `master_hash` with `calculate_master_hash()` and
`chain_valid` with `validate_chain()`.  The external segmenter, prober
and signer are abstracted into the inputs (`fileHashes` is the ordered
list of per-segment content hashes). -/
def process_and_sign_video (H : String → String) (video_id original_filename : String)
    (outputDir now : String) (segDur totalDur : ℚ) (template : JObj)
    (scores : List ScoreEntry) (fileHashes : List String) : SegmentChainManifest :=
  let segs := assembleSegments outputDir now segDur totalDur scores 0 none fileHashes
  let m0 : SegmentChainManifest :=
    { video_id := video_id
      original_filename := original_filename
      total_segments := (segs.length : Int)
      segment_duration := segDur
      total_duration := totalDur
      master_hash := ""
      chain_valid := false
      segments := segs
      c2pa_manifest_template := template
      created_at := now
      processing_version := "1.0" }
  let m1 := { m0 with master_hash := calculate_master_hash H m0 }
  { m1 with chain_valid := validate_chain H m1 }

end C2PA

namespace C2PA

/-! ## C1 and C2: chain construction and validation -/

/-- The assembled segments link correctly from any predecessor. -/
theorem chainFrom_assembleSegments (outputDir now : String) (segDur totalDur : ℚ)
    (scores : List ScoreEntry) (hs : List String) :
    ∀ (i : Nat) (p : SegmentInfo),
      chainFrom p (assembleSegments outputDir now segDur totalDur scores i (some p.file_hash) hs) = true := by
  induction hs with
  | nil => intro i p; rfl
  | cons h t ih =>
    intro i p
    simp only [assembleSegments, chainFrom, Bool.and_eq_true]
    exact ⟨beq_self_eq_true _, ih (i + 1) _⟩

/-- **C1**: a manifest assembled by `process_and_sign_video` from a
non-empty list of per-segment hashes (segment 0 has `previous_hash =
None`, segment i links to segment i-1's hash, `master_hash` is the
recomputed master hash) passes `validate_chain`. -/
theorem honest_manifest_validates (H : String → String)
    (video_id original_filename outputDir now : String) (segDur totalDur : ℚ)
    (template : JObj) (scores : List ScoreEntry) (fileHashes : List String)
    (hne : fileHashes ≠ []) :
    validate_chain H (process_and_sign_video H video_id original_filename outputDir now
      segDur totalDur template scores fileHashes) = true := by
  cases fileHashes with
  | nil => exact absurd rfl hne
  | cons h t =>
    simp only [process_and_sign_video, validate_chain, assembleSegments,
      calculate_master_hash, Bool.and_eq_true, beq_self_eq_true, true_and, and_true]
    exact chainFrom_assembleSegments outputDir now segDur totalDur scores t 1 _

/-- Witness for C1 at a concrete two-segment input. -/
theorem honest_manifest_validates_witness :
    validate_chain id (process_and_sign_video id "vid" "orig.mp4" "out" "t0"
      2 3 [] [] ["aa", "bb"]) = true :=
  honest_manifest_validates id "vid" "orig.mp4" "out" "t0" 2 3 [] [] ["aa", "bb"]
    (by decide)

end C2PA

namespace C2PA

/-- The link loop of `validate_chain`, expressed positionally: `chainFrom p l`
holds iff each element of `l` carries the `file_hash` of its predecessor in
`p :: l`. -/
theorem chainFrom_iff_links (p : SegmentInfo) (l : List SegmentInfo) :
    chainFrom p l = true ↔
      ∀ (i : Nat) (hi : i < l.length),
        (l.get ⟨i, hi⟩).previous_hash =
          some (((p :: l).get ⟨i, Nat.lt_succ_of_lt hi⟩).file_hash) := by
  induction l generalizing p with
  | nil => simp [chainFrom]
  | cons s t ih =>
    simp only [chainFrom, Bool.and_eq_true, beq_iff_eq]
    constructor
    · rintro ⟨h1, h2⟩ i hi
      cases i with
      | zero => exact h1
      | succ j =>
        exact (ih s).mp h2 j (by simpa [Nat.succ_lt_succ_iff] using hi)
    · intro hAll
      refine ⟨hAll 0 (by simp), (ih s).mpr ?_⟩
      intro j hj
      exact hAll (j + 1) (by simpa [Nat.succ_lt_succ_iff] using hj)

/-- **C2**: `validate_chain` returns true exactly when the segment list is
non-empty, the recomputed master hash equals the stored one, segment 0 has no
`previous_hash`, and each segment `i+1` carries segment `i`'s `file_hash`;
and on an empty segment list it returns false (it is a total function — the
embedding has no exceptions). -/
theorem validate_chain_characterized (H : String → String) (m : SegmentChainManifest) :
    (validate_chain H m = true ↔
      (m.segments ≠ [] ∧
       calculate_master_hash H m = m.master_hash ∧
       (∀ (h0 : 0 < m.segments.length), (m.segments.get ⟨0, h0⟩).previous_hash = none) ∧
       ∀ (i : Nat) (hi : i + 1 < m.segments.length),
         (m.segments.get ⟨i + 1, hi⟩).previous_hash =
           some ((m.segments.get ⟨i, Nat.lt_of_succ_lt hi⟩).file_hash))) ∧
    (m.segments = [] → validate_chain H m = false) := by
  constructor
  · cases hs : m.segments with
    | nil =>
      simp [validate_chain, hs]
    | cons s0 rest =>
      simp only [validate_chain, hs, Bool.and_eq_true, beq_iff_eq]
      constructor
      · rintro ⟨⟨hmh, hp0⟩, hchain⟩
        refine ⟨by simp, hmh, fun h0 => hp0, fun i hi => ?_⟩
        have hi' : i < rest.length := by
          simpa [Nat.succ_lt_succ_iff] using hi
        exact (chainFrom_iff_links s0 rest).mp hchain i hi'
      · rintro ⟨hne, hmh, hp0, hlinks⟩
        refine ⟨⟨hmh, hp0 (by simp)⟩, (chainFrom_iff_links s0 rest).mpr ?_⟩
        intro j hj
        exact hlinks j (by simpa [Nat.succ_lt_succ_iff] using hj)
  · intro h
    simp [validate_chain, h]

/-- Fixture: a segment with the given id, file hash, previous hash and
deepfake score; the remaining fields are fixed test values. -/
def mkSeg (i : Int) (fh : String) (prev : Option String) (score : Option ℚ) : SegmentInfo :=
  { segment_id := i, start_time := 0, end_time := 2, duration := 2,
    file_path := "p", file_hash := fh, c2pa_signature := none, previous_hash := prev,
    deepfake_score := score, deepfake_model := none, deepfake_confidence := none,
    deepfake_metadata := none, created_at := "t" }

/-- Fixture: a two-segment manifest whose chain is honestly linked, with the
identity function standing in for the digest. -/
def exManifest : SegmentChainManifest :=
  { video_id := "v", original_filename := "o.mp4", total_segments := 2,
    segment_duration := 2, total_duration := 4,
    master_hash := "0:a:1:b:a", chain_valid := true,
    segments := [mkSeg 0 "a" none none, mkSeg 1 "b" (some "a") none],
    c2pa_manifest_template := [], created_at := "t", processing_version := "1.0" }

/-- Fixture: a manifest with an empty segment list. -/
def exEmptyManifest : SegmentChainManifest :=
  { exManifest with segments := [], master_hash := "", total_segments := 0 }

/-- Witness for C2: the characterization applied at a concrete valid manifest
and at a concrete empty-segment manifest. -/
theorem validate_chain_characterized_witness :
    validate_chain id exManifest = true ∧ validate_chain id exEmptyManifest = false := by
  constructor
  · refine (validate_chain_characterized id exManifest).1.mpr ⟨?_, ?_, ?_, ?_⟩
    · simp [exManifest]
    · rfl
    · intro h0; rfl
    · intro i hi
      have : i = 0 := by
        simp only [exManifest, List.length_cons, List.length_nil] at hi
        omega
      subst this; rfl
  · exact (validate_chain_characterized id exEmptyManifest).2 rfl

end C2PA

namespace C2PA

/-! ## C3: the master-hash pre-image

`calculate_master_hash` concatenates the per-segment chunks with **no**
separator between consecutive segments (the only colons are those inside a
chunk), so over arbitrary `(segment_id, file_hash, previous_hash)` triples the
pre-image is ambiguous.  Over the triples actually produced by the honest
assembly — ids equal to positions and fixed-length (64-hex) file hashes — it
is injective in the list of file hashes. -/

/-- The chain-relevant triples of a segment list: exactly the fields that feed
`calculate_master_hash` and the link checks of `validate_chain`. -/
def chainTriples (segs : List SegmentInfo) : List (Int × String × Option String) :=
  segs.map fun s => (s.segment_id, s.file_hash, s.previous_hash)

/-- **C3 counterexample**: two segment lists with distinct
`(segment_id, file_hash, previous_hash)` triples whose master-hash pre-images
coincide — `"0:" ++ "a:1:b" ++ ":"` equals `"0:a:" ++ "1:b:"`. -/
theorem masterPreimage_collision :
    masterPreimage [mkSeg 0 "a:1:b" none none] =
      masterPreimage [mkSeg 0 "a" none none, mkSeg 1 "b" none none] ∧
    chainTriples [mkSeg 0 "a:1:b" none none] ≠
      chainTriples [mkSeg 0 "a" none none, mkSeg 1 "b" none none] := by
  exact ⟨by decide, by decide⟩

/-- The character-level pre-image of an honestly assembled chain starting at
index `i` with pending `previous_hash` value `prev`. -/
def chainPre : Nat → Option String → List String → List Char
  | _, _, [] => []
  | i, prev, h :: t =>
    (toString (i : Int)).data ++
      ':' :: (h.data ++ ':' :: ((prev.getD "").data ++ chainPre (i + 1) (some h) t))

/-- The pre-image fold over assembled segments, as character data. -/
theorem foldl_assemble_data (outputDir now : String) (segDur totalDur : ℚ)
    (scores : List ScoreEntry) (hs : List String) :
    ∀ (i : Nat) (prev : Option String) (init : String),
      (List.foldl (fun acc s => acc ++ segChunk s) init
          (assembleSegments outputDir now segDur totalDur scores i prev hs)).data =
        init.data ++ chainPre i prev hs := by
  induction hs with
  | nil => intro i prev init; simp [assembleSegments, chainPre]
  | cons h t ih =>
    intro i prev init
    simp only [assembleSegments, List.foldl_cons, chainPre]
    rw [ih (i + 1) (some h) (init ++ segChunk _)]
    simp [segChunk, String.data_append, List.append_assoc]

/-- `masterPreimage` of an honest assembly, as character data. -/
theorem masterPreimage_assemble_data (outputDir now : String) (segDur totalDur : ℚ)
    (scores : List ScoreEntry) (hs : List String) (i : Nat) (prev : Option String) :
    (masterPreimage (assembleSegments outputDir now segDur totalDur scores i prev hs)).data =
      chainPre i prev hs := by
  rw [masterPreimage, foldl_assemble_data]
  rfl

/-- `chainPre` is injective in the hash list once all hashes have a fixed
length (here 64, the length of a SHA-256 hex digest). -/
theorem chainPre_inj (hs : List String) :
    ∀ (hs' : List String) (i : Nat) (prev : Option String),
      (∀ h ∈ hs, h.length = 64) → (∀ h ∈ hs', h.length = 64) →
      chainPre i prev hs = chainPre i prev hs' → hs = hs' := by
  induction hs with
  | nil =>
    intro hs' i prev _ _ heq
    cases hs' with
    | nil => rfl
    | cons h' t' => simp [chainPre] at heq
  | cons h t ih =>
    intro hs' i prev hlen hlen' heq
    cases hs' with
    | nil => simp [chainPre] at heq
    | cons h' t' =>
      simp only [chainPre] at heq
      have h1 := List.append_cancel_left heq
      injection h1 with _ h2
      have hlh : h.data.length = h'.data.length := by
        have e1 : h.length = 64 := hlen h (List.mem_cons_self _ _)
        have e2 : h'.length = 64 := hlen' h' (List.mem_cons_self _ _)
        exact e1.trans e2.symm
      obtain ⟨hd, htl⟩ := List.append_inj h2 hlh
      have hh : h = h' := String.ext hd
      injection htl with _ h3
      have h4 := List.append_cancel_left h3
      subst hh
      have ht : t = t' :=
        ih t' (i + 1) (some h)
          (fun x hx => hlen x (List.mem_cons_of_mem _ hx))
          (fun x hx => hlen' x (List.mem_cons_of_mem _ hx)) h4
      rw [ht]

end C2PA

namespace C2PA

/-- **C3 (amended)**: over the triples produced by the honest chain assembly
(segment ids equal to positions, `previous_hash` threaded from the prior file
hash), the master-hash pre-image is injective in the list of per-segment file
hashes, provided every hash has the fixed digest length (64 hex characters);
over arbitrary triples the unseparated concatenation can collide. -/
theorem masterPreimage_honest_injective
    (od now od' now' : String) (sd td sd' td' : ℚ) (sc sc' : List ScoreEntry)
    (hs hs' : List String)
    (hlen : ∀ h ∈ hs, h.length = 64) (hlen' : ∀ h ∈ hs', h.length = 64)
    (heq : masterPreimage (assembleSegments od now sd td sc 0 none hs) =
           masterPreimage (assembleSegments od' now' sd' td' sc' 0 none hs')) :
    hs = hs' := by
  apply chainPre_inj hs hs' 0 none hlen hlen'
  have d1 := masterPreimage_assemble_data od now sd td sc hs 0 none
  have d2 := masterPreimage_assemble_data od' now' sd' td' sc' hs' 0 none
  rw [← d1, ← d2, heq]

/-- Witness for the amended C3 at concrete 64-character hashes. -/
theorem masterPreimage_honest_injective_witness :
    (["0123456789abcdef0123456789abcdef0123456789abcdef0123456789abcdef"] : List String) =
      ["0123456789abcdef0123456789abcdef0123456789abcdef0123456789abcdef"] :=
  masterPreimage_honest_injective "o" "t" "o" "t" 2 2 2 2 [] []
    ["0123456789abcdef0123456789abcdef0123456789abcdef0123456789abcdef"]
    ["0123456789abcdef0123456789abcdef0123456789abcdef0123456789abcdef"]
    (by decide) (by decide) rfl

end C2PA

namespace C2PA

/-! ## `update_deepfake_scores` (C6, C7, C10)

The Python loop guards with `segment_id is not None and segment_id <
len(self.segments)` and then evaluates `self.segments[segment_id]`: a
negative id passes the guard and indexes from the end of the list, and an id
below `-len(segments)` raises `IndexError`, aborting the loop with the
earlier mutations kept. -/

/-- The overwrite performed on a matched segment: exactly the four deepfake
fields, with the dict-lookup defaults `get('score')`, `get('model',
'unknown')`, `get('confidence')`, `get('metadata', {})`. -/
def updSeg (e : ScoreEntry) (s : SegmentInfo) : SegmentInfo :=
  { s with deepfake_score := e.score
           deepfake_model := some (e.model.getD "unknown")
           deepfake_confidence := e.confidence
           deepfake_metadata := some (e.metadata.getD []) }

/-- `self.segments[k] = updated` at an in-range Python index `k ≥ 0`. -/
def setAt (segs : List SegmentInfo) (k : Nat) (e : ScoreEntry) : List SegmentInfo :=
  match segs[k]? with
  | some s => segs.set k (updSeg e s)
  | none => segs

/-- The message Python attaches to an out-of-range list subscript. -/
def indexErrorMsg : String := "IndexError: list index out of range"

/-- The loop of `update_deepfake_scores`: segments so far, running
`updated_count`, remaining entries; the third result component is the raised
`IndexError`, if any. -/
def updateLoop : List SegmentInfo → Nat → List ScoreEntry → List SegmentInfo × Nat × Option String
  | segs, count, [] => (segs, count, none)
  | segs, count, e :: rest =>
    match e.segment_id with
    | none => updateLoop segs count rest
    | some id =>
      if id < (segs.length : Int) then
        if 0 ≤ id then
          updateLoop (setAt segs id.toNat e) (count + 1) rest
        else if 0 ≤ (segs.length : Int) + id then
          updateLoop (setAt segs ((segs.length : Int) + id).toNat e) (count + 1) rest
        else (segs, count, some indexErrorMsg)
      else updateLoop segs count rest

/-- `SegmentChainManifest.update_deepfake_scores`: the updated manifest, the
returned count, and the raised `IndexError` if any (on a raise the manifest
keeps the updates applied before it, as the mutated Python object does). -/
def update_deepfake_scores (m : SegmentChainManifest) (entries : List ScoreEntry) :
    SegmentChainManifest × Nat × Option String :=
  let r := updateLoop m.segments 0 entries
  ({ m with segments := r.1 }, r.2.1, r.2.2)

/-- Every field of a segment except the four deepfake fields. -/
def segCore (s : SegmentInfo) :
    Int × ℚ × ℚ × ℚ × String × String × Option String × Option String × String :=
  (s.segment_id, s.start_time, s.end_time, s.duration, s.file_path, s.file_hash,
   s.c2pa_signature, s.previous_hash, s.created_at)

/-- `setAt` preserves any projection that ignores the deepfake fields. -/
theorem setAt_map_invariant {α : Type} (f : SegmentInfo → α)
    (hf : ∀ e s, f (updSeg e s) = f s) (segs : List SegmentInfo) :
    ∀ (k : Nat) (e : ScoreEntry), (setAt segs k e).map f = segs.map f := by
  induction segs with
  | nil => intro k e; rfl
  | cons s t ih =>
    intro k e
    cases k with
    | zero =>
      simp only [setAt, List.getElem?_cons_zero, List.set_cons_zero, List.map_cons]
      rw [hf]
    | succ j =>
      simp only [setAt, List.getElem?_cons_succ, List.set_cons_succ, List.map_cons]
      cases hj : t[j]? with
      | none => rfl
      | some s' =>
        have := ih j e
        simp only [setAt, hj] at this
        simp [this]

/-- `updateLoop` preserves any projection that ignores the deepfake fields. -/
theorem updateLoop_map_invariant {α : Type} (f : SegmentInfo → α)
    (hf : ∀ e s, f (updSeg e s) = f s) (entries : List ScoreEntry) :
    ∀ (segs : List SegmentInfo) (count : Nat),
      ((updateLoop segs count entries).1).map f = segs.map f := by
  induction entries with
  | nil => intro segs count; rfl
  | cons e rest ih =>
    intro segs count
    cases he : e.segment_id with
    | none => simp only [updateLoop, he]; exact ih segs count
    | some id =>
      simp only [updateLoop, he]
      by_cases h1 : id < (segs.length : Int)
      · rw [if_pos h1]
        by_cases h2 : 0 ≤ id
        · rw [if_pos h2, ih, setAt_map_invariant f hf]
        · rw [if_neg h2]
          by_cases h3 : 0 ≤ (segs.length : Int) + id
          · rw [if_pos h3, ih, setAt_map_invariant f hf]
          · rw [if_neg h3]
      · rw [if_neg h1]
        exact ih segs count

end C2PA

namespace C2PA

/-- The pre-image chunk as a function of a chain triple. -/
def tripleChunk (t : Int × String × Option String) : String :=
  toString t.1 ++ ":" ++ t.2.1 ++ ":" ++ t.2.2.getD ""

/-- The master-hash pre-image as a function of the chain triples. -/
def triplesPre (ts : List (Int × String × Option String)) : String :=
  ts.foldl (fun acc t => acc ++ tripleChunk t) ""

/-- The link loop as a function of the chain triples. -/
def chainFromT (prevFh : String) : List (Int × String × Option String) → Bool
  | [] => true
  | t :: rest => (t.2.2 == some prevFh) && chainFromT t.2.1 rest

theorem masterPreimage_eq_triplesPre (segs : List SegmentInfo) :
    masterPreimage segs = triplesPre (chainTriples segs) := by
  rw [masterPreimage, triplesPre, chainTriples, List.foldl_map]
  rfl

theorem chainFrom_eq_chainFromT (l : List SegmentInfo) :
    ∀ (p : SegmentInfo), chainFrom p l = chainFromT p.file_hash (chainTriples l) := by
  induction l with
  | nil => intro p; rfl
  | cons s t ih =>
    intro p
    simp only [chainFrom, chainTriples, List.map_cons, chainFromT]
    rw [← chainTriples, ih s]

/-- `validate_chain` depends only on the stored master hash and the chain
triples of the segments. -/
theorem validate_chain_congr (H : String → String) (m m' : SegmentChainManifest)
    (hmh : m'.master_hash = m.master_hash)
    (hseg : chainTriples m'.segments = chainTriples m.segments) :
    validate_chain H m' = validate_chain H m := by
  have hlen : m'.segments.length = m.segments.length := by
    have := congrArg List.length hseg
    simpa [chainTriples] using this
  cases hs : m.segments with
  | nil =>
    have hs' : m'.segments = [] := by
      rw [hs] at hlen; exact List.eq_nil_of_length_eq_zero hlen
    simp [validate_chain, hs, hs']
  | cons s0 rest =>
    cases hs' : m'.segments with
    | nil => rw [hs, hs'] at hlen; simp at hlen
    | cons s0' rest' =>
      rw [hs, hs'] at hseg
      simp only [chainTriples, List.map_cons] at hseg
      injection hseg with hhead htail
      have hfh : s0'.file_hash = s0.file_hash := by
        have := congrArg (fun t => t.2.1) hhead
        simpa using this
      have hph : s0'.previous_hash = s0.previous_hash := by
        have := congrArg (fun t => t.2.2) hhead
        simpa using this
      simp only [validate_chain, hs, hs', calculate_master_hash,
        masterPreimage_eq_triplesPre, chainFrom_eq_chainFromT]
      simp only [chainTriples, List.map_cons]
      rw [hhead, htail, hmh, hfh, hph]

/-- **C6**: `update_deepfake_scores` changes nothing but the four deepfake
fields of the targeted segments — ids, file hashes, previous hashes, timing,
paths, timestamps, and the manifest's `master_hash` are untouched — and
therefore the truth value of `validate_chain` is unchanged, whatever digest
function is used. -/
theorem update_deepfake_scores_preserves_chain (H : String → String)
    (m : SegmentChainManifest) (entries : List ScoreEntry) :
    ((update_deepfake_scores m entries).1).segments.map segCore = m.segments.map segCore ∧
    ((update_deepfake_scores m entries).1).master_hash = m.master_hash ∧
    validate_chain H ((update_deepfake_scores m entries).1) = validate_chain H m := by
  refine ⟨?_, rfl, ?_⟩
  · exact updateLoop_map_invariant segCore (fun _ _ => rfl) entries m.segments 0
  · refine validate_chain_congr H m ((update_deepfake_scores m entries).1) rfl ?_
    exact updateLoop_map_invariant (fun s => (s.segment_id, s.file_hash, s.previous_hash))
      (fun _ _ => rfl) entries m.segments 0

end C2PA

namespace C2PA

/-- **C7 counterexample**: on the two-segment fixture, an entry with
`segment_id = -1` is *not* ignored — it passes the `segment_id <
len(segments)` guard and Python's negative indexing applies it to the *last*
segment, and it is counted; and an entry with `segment_id = -3` raises
`IndexError` instead of being ignored. -/
theorem update_deepfake_scores_negative_id :
    ((update_deepfake_scores exManifest
        [⟨some (-1), some (9/10), none, none, none⟩]).1.segments.map
          (fun s => s.deepfake_score) = [none, some (9/10)]) ∧
    (update_deepfake_scores exManifest
        [⟨some (-1), some (9/10), none, none, none⟩]).2.1 = 1 ∧
    (update_deepfake_scores exManifest
        [⟨some (-3), none, none, none, none⟩]).2.2 = some indexErrorMsg := by
  refine ⟨rfl, rfl, rfl⟩

/-- Modelled from the amended claim: an entry with a missing `segment_id`, or
one with `segment_id ≥ len(segments)`, is skipped without error and without
modifying any segment; an id in `[0, len)` overwrites the four deepfake
fields of the segment at that position; an id in `[-len, 0)` does the same at
position `len + id` (Python indexing from the end); an id below `-len` raises
`IndexError`.  Application is by position, not by the segment's
`segment_id` field. -/
def updateEntryAmended (segs : List SegmentInfo) (e : ScoreEntry) :
    List SegmentInfo × Nat × Option String :=
  match e.segment_id with
  | none => (segs, 0, none)
  | some id =>
    if 0 ≤ id ∧ id < (segs.length : Int) then (setAt segs id.toNat e, 1, none)
    else if id < 0 ∧ 0 ≤ (segs.length : Int) + id then
      (setAt segs ((segs.length : Int) + id).toNat e, 1, none)
    else if id < -(segs.length : Int) then (segs, 0, some indexErrorMsg)
    else (segs, 0, none)

/-- **C7 (amended)**: on a single entry, `update_deepfake_scores` behaves
exactly as the amended per-entry specification `updateEntryAmended`
prescribes, and the returned count is the number of entries applied. -/
theorem update_single_entry_amended (m : SegmentChainManifest) (e : ScoreEntry) :
    update_deepfake_scores m [e] =
      ({ m with segments := (updateEntryAmended m.segments e).1 },
        (updateEntryAmended m.segments e).2.1,
        (updateEntryAmended m.segments e).2.2) := by
  unfold update_deepfake_scores updateEntryAmended
  cases he : e.segment_id with
  | none => simp [updateLoop, he]
  | some id =>
    simp only [updateLoop, he]
    by_cases h1 : id < (m.segments.length : Int)
    · rw [if_pos h1]
      by_cases h2 : 0 ≤ id
      · rw [if_pos h2, if_pos ⟨h2, h1⟩]
      · rw [if_neg h2]
        by_cases h3 : 0 ≤ (m.segments.length : Int) + id
        · rw [if_pos h3, if_neg (fun hc => h2 hc.1), if_pos ⟨by omega, h3⟩]
        · rw [if_neg h3, if_neg (fun hc => h2 hc.1), if_neg (fun hc => h3 hc.2),
            if_pos (by omega)]
    · rw [if_neg h1, if_neg (fun hc => h1 hc.2), if_neg (by omega), if_neg (by omega)]

end C2PA

namespace C2PA

/-- A single entry with an in-range non-negative id is applied at that
position and counted. -/
theorem updateLoop_single_nonneg (segs : List SegmentInfo) (i : Nat)
    (hi : i < segs.length) (e : ScoreEntry) (he : e.segment_id = some (i : Int)) :
    updateLoop segs 0 [e] = (setAt segs i e, 1, none) := by
  simp only [updateLoop, he]
  rw [if_pos (by exact_mod_cast hi), if_pos (Int.natCast_nonneg i)]
  simp only [Int.toNat_natCast]

/-- `setAt` at an in-range index is `List.set` with the deepfake overwrite. -/
theorem setAt_eq_set (segs : List SegmentInfo) (i : Nat) (hi : i < segs.length)
    (e : ScoreEntry) :
    setAt segs i e = segs.set i (updSeg e (segs.get ⟨i, hi⟩)) := by
  simp only [setAt, List.getElem?_eq_getElem hi]
  rfl

/-- **C10**: an entry whose optional keys are all absent still overwrites all
four deepfake fields of the targeted segment — `deepfake_score := None`,
`deepfake_model := 'unknown'`, `deepfake_confidence := None`,
`deepfake_metadata := {}` — erasing previously stored values, and counts as
one update. -/
theorem update_missing_keys_defaults (m : SegmentChainManifest) (i : Nat)
    (hi : i < m.segments.length) :
    (update_deepfake_scores m [⟨some (i : Int), none, none, none, none⟩]).1.segments =
      m.segments.set i
        { m.segments.get ⟨i, hi⟩ with
          deepfake_score := none
          deepfake_model := some "unknown"
          deepfake_confidence := none
          deepfake_metadata := some [] } ∧
    (update_deepfake_scores m [⟨some (i : Int), none, none, none, none⟩]).2.1 = 1 := by
  have h1 := updateLoop_single_nonneg m.segments i hi
    ⟨some (i : Int), none, none, none, none⟩ rfl
  constructor
  · show (updateLoop m.segments 0 _).1 = _
    rw [h1, setAt_eq_set _ _ hi]
    rfl
  · show (updateLoop m.segments 0 _).2.1 = 1
    rw [h1]

/-- Witness for C10: applying an id-only entry to segment 1 of the fixture
manifest updates exactly one segment. -/
theorem update_missing_keys_defaults_witness :
    (update_deepfake_scores exManifest [⟨some ((1 : Nat) : Int), none, none, none, none⟩]).2.1 = 1 :=
  (update_missing_keys_defaults exManifest 1 (by decide)).2

end C2PA

namespace C2PA

/-! ## `verify_segment_chain` (C4, C5, C8)

The external tools are abstracted into what they report about each provided
file: `calculate_file_hash` becomes the file's recomputed hash and
`_verify_c2pa_signature` its boolean verdict.  The loop iterates over
`zip(manifest.segments, segment_paths)`, which silently stops at the shorter
list; the embedding is exception-free, so the `except` branch of the loop
body (which records an error result) does not arise and the loop counters
equal the counts over the recorded results. -/

/-- A provided segment file, abstracted to the external tools' outputs. -/
structure ProvidedFile where
  hash : String
  c2pa : Bool
deriving Repr, DecidableEq

/-- `SegmentVerificationResult` (pydantic model). -/
structure SegmentVerificationResult where
  segment_id : Int
  c2pa_valid : Bool
  hash_valid : Bool
  deepfake_flagged : Bool
  deepfake_score : Option ℚ
  error_message : Option String
deriving Repr, DecidableEq

/-- `VerificationReport` (pydantic model, the fields computed by
`verify_segment_chain`). -/
structure VerificationReport where
  video_id : String
  overall_authentic : Bool
  chain_valid : Bool
  segment_results : List SegmentVerificationResult
  total_segments : Nat
  valid_c2pa_signatures : Nat
  valid_hashes : Nat
  deepfake_flagged_count : Nat
  deepfake_threshold : ℚ
  average_deepfake_score : Option ℚ
deriving Repr

/-- The loop body at index `i`: `hash_valid = (recomputed == stored)`,
`c2pa_valid` from the verifier, `deepfake_flagged = score is not None and
score > threshold`. -/
def segResult (thr : ℚ) (i : Nat) (s : SegmentInfo) (f : ProvidedFile) :
    SegmentVerificationResult :=
  { segment_id := (i : Int)
    c2pa_valid := f.c2pa
    hash_valid := f.hash == s.file_hash
    deepfake_flagged := match s.deepfake_score with
      | some q => decide (q > thr)
      | none => false
    deepfake_score := s.deepfake_score
    error_message := none }

/-- `for i, (segment_info, segment_path) in enumerate(zip(...))`. -/
def segResultsFrom (thr : ℚ) :
    Nat → List SegmentInfo → List ProvidedFile → List SegmentVerificationResult
  | _, [], _ => []
  | _, _ :: _, [] => []
  | i, s :: ss, f :: fs => segResult thr i s f :: segResultsFrom thr (i + 1) ss fs

/-- The `deepfake_scores` list accumulated by the loop: the non-null stored
scores of the zipped segments. -/
def collectScores : List SegmentInfo → List ProvidedFile → List ℚ
  | [], _ => []
  | _ :: _, [] => []
  | s :: ss, _ :: fs =>
    match s.deepfake_score with
    | some q => q :: collectScores ss fs
    | none => collectScores ss fs

/-- `SegmentAuthenticator.verify_segment_chain`. -/
def verify_segment_chain (H : String → String) (m : SegmentChainManifest)
    (files : List ProvidedFile) (thr : ℚ) : VerificationReport :=
  let results := segResultsFrom thr 0 m.segments files
  let valid_c2pa_count := (results.filter (fun r => r.c2pa_valid)).length
  let valid_hash_count := (results.filter (fun r => r.hash_valid)).length
  let flagged_count := (results.filter (fun r => r.deepfake_flagged)).length
  let scores := collectScores m.segments files
  let chain_valid := validate_chain H m
  { video_id := m.video_id
    overall_authentic := chain_valid && (valid_c2pa_count == results.length) &&
      (valid_hash_count == results.length) && (flagged_count == 0)
    chain_valid := chain_valid
    segment_results := results
    total_segments := results.length
    valid_c2pa_signatures := valid_c2pa_count
    valid_hashes := valid_hash_count
    deepfake_flagged_count := flagged_count
    deepfake_threshold := thr
    average_deepfake_score :=
      if scores.isEmpty then none else some (scores.sum / (scores.length : ℚ)) }

theorem filter_length_eq_iff {α : Type} (p : α → Bool) (l : List α) :
    (l.filter p).length = l.length ↔ ∀ a ∈ l, p a = true := by
  rw [← List.countP_eq_length_filter]
  exact List.countP_eq_length

theorem segResultsFrom_length (thr : ℚ) :
    ∀ (i : Nat) (ss : List SegmentInfo) (fs : List ProvidedFile),
      (segResultsFrom thr i ss fs).length = min ss.length fs.length := by
  intro i ss
  induction ss generalizing i with
  | nil => intro fs; simp [segResultsFrom]
  | cons s t ih =>
    intro fs
    cases fs with
    | nil => simp [segResultsFrom]
    | cons f gs =>
      simp only [segResultsFrom, List.length_cons, ih (i + 1) gs]
      omega

end C2PA

namespace C2PA

/-- Positional description of the loop results: the result at position `k`
is the loop body applied to segment `k` and file `k`. -/
theorem segResultsFrom_get (thr : ℚ) (ss : List SegmentInfo) :
    ∀ (fs : List ProvidedFile) (i k : Nat)
      (hk : k < (segResultsFrom thr i ss fs).length)
      (hks : k < ss.length) (hkf : k < fs.length),
      (segResultsFrom thr i ss fs).get ⟨k, hk⟩ =
        segResult thr (i + k) (ss.get ⟨k, hks⟩) (fs.get ⟨k, hkf⟩) := by
  induction ss with
  | nil => intro fs i k hk hks hkf; simp at hks
  | cons s t ih =>
    intro fs i k hk hks hkf
    cases fs with
    | nil => simp at hkf
    | cons f gs =>
      cases k with
      | zero => simp [segResultsFrom]
      | succ j =>
        have hk' : j < (segResultsFrom thr (i + 1) t gs).length := by
          simpa [segResultsFrom] using hk
        have hks' : j < t.length := by simpa [Nat.succ_lt_succ_iff] using hks
        have hkf' : j < gs.length := by simpa [Nat.succ_lt_succ_iff] using hkf
        have h := ih gs (i + 1) j hk' hks' hkf'
        have harith : i + (j + 1) = (i + 1) + j := by omega
        rw [harith]
        exact h

/-- The top-level verdict as a conjunction over the recorded results. -/
theorem verify_overall_iff (H : String → String) (m : SegmentChainManifest)
    (files : List ProvidedFile) (thr : ℚ) :
    (verify_segment_chain H m files thr).overall_authentic = true ↔
      (validate_chain H m = true ∧
       (∀ r ∈ segResultsFrom thr 0 m.segments files, r.hash_valid = true) ∧
       (∀ r ∈ segResultsFrom thr 0 m.segments files, r.c2pa_valid = true) ∧
       ((segResultsFrom thr 0 m.segments files).filter
          (fun r => r.deepfake_flagged)).length = 0) := by
  simp only [verify_segment_chain]
  simp only [Bool.and_eq_true, beq_iff_eq, filter_length_eq_iff]
  tauto

end C2PA

namespace C2PA

/-- Altering the provided file at position `j` leaves every other position's
result unchanged. -/
theorem segResults_set_other (thr : ℚ) (m : SegmentChainManifest)
    (files : List ProvidedFile) (j : Nat) (nf : ProvidedFile) (k : Nat)
    (hk : k < (segResultsFrom thr 0 m.segments (files.set j nf)).length)
    (hk' : k < (segResultsFrom thr 0 m.segments files).length)
    (hkj : k ≠ j) :
    (segResultsFrom thr 0 m.segments (files.set j nf)).get ⟨k, hk⟩ =
      (segResultsFrom thr 0 m.segments files).get ⟨k, hk'⟩ := by
  have hk2 := hk
  rw [segResultsFrom_length] at hk2
  obtain ⟨hkseg, hkfs⟩ := lt_min_iff.mp hk2
  have hkf : k < files.length := by simpa using hkfs
  rw [segResultsFrom_get thr m.segments (files.set j nf) 0 k hk hkseg hkfs,
    segResultsFrom_get thr m.segments files 0 k hk' hkseg hkf]
  congr 1
  simp [List.get_eq_getElem, List.getElem_set_ne (Ne.symm hkj)]

/-- Altering the provided file at position `j` so that its hash differs from
the manifest flips exactly that result's `hash_valid` to false. -/
theorem segResults_set_self (thr : ℚ) (m : SegmentChainManifest)
    (files : List ProvidedFile) (j : Nat) (hj : j < files.length)
    (hjs : j < m.segments.length) (newHash : String)
    (hne : newHash ≠ (m.segments.get ⟨j, hjs⟩).file_hash)
    (hjr : j < (segResultsFrom thr 0 m.segments
        (files.set j ⟨newHash, (files.get ⟨j, hj⟩).c2pa⟩)).length)
    (hjr' : j < (segResultsFrom thr 0 m.segments files).length) :
    (segResultsFrom thr 0 m.segments
        (files.set j ⟨newHash, (files.get ⟨j, hj⟩).c2pa⟩)).get ⟨j, hjr⟩ =
      { (segResultsFrom thr 0 m.segments files).get ⟨j, hjr'⟩ with
          hash_valid := false } := by
  have hjfs : j < (files.set j ⟨newHash, (files.get ⟨j, hj⟩).c2pa⟩).length := by
    simpa using hj
  rw [segResultsFrom_get thr m.segments _ 0 j hjr hjs hjfs,
    segResultsFrom_get thr m.segments files 0 j hjr' hjs hj]
  have hset : (files.set j ⟨newHash, (files.get ⟨j, hj⟩).c2pa⟩).get ⟨j, hjfs⟩ =
      ⟨newHash, (files.get ⟨j, hj⟩).c2pa⟩ := by
    simp [List.get_eq_getElem, List.getElem_set_self]
  rw [hset]
  simp only [segResult]
  simp [beq_eq_false_iff_ne]
  exact hne

/-- With one altered hash among the provided files, the overall verdict is
false. -/
theorem verify_overall_set_false (H : String → String) (thr : ℚ)
    (m : SegmentChainManifest) (files : List ProvidedFile) (j : Nat)
    (hj : j < files.length) (hjs : j < m.segments.length) (newHash : String)
    (hne : newHash ≠ (m.segments.get ⟨j, hjs⟩).file_hash) :
    (verify_segment_chain H m (files.set j ⟨newHash, (files.get ⟨j, hj⟩).c2pa⟩)
        thr).overall_authentic = false := by
  cases hov : (verify_segment_chain H m
      (files.set j ⟨newHash, (files.get ⟨j, hj⟩).c2pa⟩) thr).overall_authentic with
  | false => rfl
  | true =>
    exfalso
    obtain ⟨_, hhash, _, _⟩ := (verify_overall_iff H m _ thr).mp hov
    have hjr : j < (segResultsFrom thr 0 m.segments
        (files.set j ⟨newHash, (files.get ⟨j, hj⟩).c2pa⟩)).length := by
      rw [segResultsFrom_length]
      exact lt_min_iff.mpr ⟨hjs, by simpa using hj⟩
    have hmem := List.get_mem (segResultsFrom thr 0 m.segments
        (files.set j ⟨newHash, (files.get ⟨j, hj⟩).c2pa⟩)) j hjr
    have hval := hhash _ hmem
    have hjfs : j < (files.set j ⟨newHash, (files.get ⟨j, hj⟩).c2pa⟩).length := by
      simpa using hj
    rw [segResultsFrom_get thr m.segments _ 0 j hjr hjs hjfs] at hval
    have hset : (files.set j ⟨newHash, (files.get ⟨j, hj⟩).c2pa⟩).get ⟨j, hjfs⟩ =
        ⟨newHash, (files.get ⟨j, hj⟩).c2pa⟩ := by
      simp [List.get_eq_getElem, List.getElem_set_self]
    rw [hset] at hval
    simp only [segResult, beq_iff_eq] at hval
    exact hne hval

end C2PA

namespace C2PA

/-- **C4**: `overall_authentic` is the strict conjunction of the recomputed
chain validity, every per-segment `hash_valid`, every per-segment
`c2pa_valid`, and a zero flagged count; and altering exactly one provided
segment file (so that its recomputed hash no longer matches the manifest)
flips only that segment's `hash_valid` to false, leaves every other segment's
result unchanged, and forces `overall_authentic = false`. -/
theorem verify_overall_conjunction_and_isolation :
    (∀ (H : String → String) (m : SegmentChainManifest) (files : List ProvidedFile) (thr : ℚ),
      ((verify_segment_chain H m files thr).overall_authentic = true ↔
        ((verify_segment_chain H m files thr).chain_valid = true ∧
         (∀ r ∈ (verify_segment_chain H m files thr).segment_results, r.hash_valid = true) ∧
         (∀ r ∈ (verify_segment_chain H m files thr).segment_results, r.c2pa_valid = true) ∧
         (verify_segment_chain H m files thr).deepfake_flagged_count = 0))) ∧
    (∀ (H : String → String) (m : SegmentChainManifest) (files : List ProvidedFile)
       (thr : ℚ) (j : Nat) (hj : j < files.length) (hjs : j < m.segments.length)
       (newHash : String),
       newHash ≠ (m.segments.get ⟨j, hjs⟩).file_hash →
       ((∀ (k : Nat)
           (hk : k < (verify_segment_chain H m
               (files.set j ⟨newHash, (files.get ⟨j, hj⟩).c2pa⟩) thr).segment_results.length)
           (hk' : k < (verify_segment_chain H m files thr).segment_results.length),
           k ≠ j →
           (verify_segment_chain H m (files.set j ⟨newHash, (files.get ⟨j, hj⟩).c2pa⟩)
               thr).segment_results.get ⟨k, hk⟩ =
             (verify_segment_chain H m files thr).segment_results.get ⟨k, hk'⟩) ∧
        (∀ (hjr : j < (verify_segment_chain H m
               (files.set j ⟨newHash, (files.get ⟨j, hj⟩).c2pa⟩) thr).segment_results.length)
           (hjr' : j < (verify_segment_chain H m files thr).segment_results.length),
           (verify_segment_chain H m (files.set j ⟨newHash, (files.get ⟨j, hj⟩).c2pa⟩)
               thr).segment_results.get ⟨j, hjr⟩ =
             { (verify_segment_chain H m files thr).segment_results.get ⟨j, hjr'⟩ with
                 hash_valid := false }) ∧
        (verify_segment_chain H m (files.set j ⟨newHash, (files.get ⟨j, hj⟩).c2pa⟩)
            thr).overall_authentic = false)) := by
  constructor
  · intro H m files thr
    exact verify_overall_iff H m files thr
  · intro H m files thr j hj hjs newHash hne
    refine ⟨?_, ?_, ?_⟩
    · intro k hk hk' hkj
      exact segResults_set_other thr m files j _ k hk hk' hkj
    · intro hjr hjr'
      exact segResults_set_self thr m files j hj hjs newHash hne hjr hjr'
    · exact verify_overall_set_false H thr m files j hj hjs newHash hne

/-- Witness for C4: on the honest two-segment fixture the verdict is true,
and after altering file 0's bytes (hash `"z"` instead of `"a"`) it is
false. -/
theorem verify_overall_conjunction_and_isolation_witness :
    (verify_segment_chain id exManifest [⟨"a", true⟩, ⟨"b", true⟩] 1).overall_authentic = true ∧
    (verify_segment_chain id exManifest [⟨"z", true⟩, ⟨"b", true⟩] 1).overall_authentic = false := by
  constructor
  · exact (verify_overall_conjunction_and_isolation.1 id exManifest
      [⟨"a", true⟩, ⟨"b", true⟩] 1).mpr (by decide)
  · exact (verify_overall_conjunction_and_isolation.2 id exManifest
      [⟨"a", true⟩, ⟨"b", true⟩] 1 0 (by decide) (by decide) "z" (by decide)).2.2

/-- **C5 counterexample**: handing `verify_segment_chain` fewer files than
manifest segments is *not* fatal — on the two-segment fixture with a single
(matching) file it silently produces a report over one segment, which is even
`overall_authentic`. -/
theorem verify_count_mismatch_reports :
    (verify_segment_chain id exManifest [⟨"a", true⟩] 1).total_segments = 1 ∧
    (verify_segment_chain id exManifest [⟨"a", true⟩] 1).segment_results.length = 1 ∧
    (verify_segment_chain id exManifest [⟨"a", true⟩] 1).overall_authentic = true := by
  refine ⟨rfl, rfl, by decide⟩

/-- **C5 (amended)**: `verify_segment_chain` performs no segment-count check;
`zip` silently truncates, and the report always covers exactly
`min(len(manifest.segments), len(files))` segments. -/
theorem verify_truncates_to_min (H : String → String) (m : SegmentChainManifest)
    (files : List ProvidedFile) (thr : ℚ) :
    (verify_segment_chain H m files thr).total_segments =
      min m.segments.length files.length ∧
    (verify_segment_chain H m files thr).segment_results.length =
      min m.segments.length files.length := by
  constructor <;> exact segResultsFrom_length thr 0 m.segments files

theorem collectScores_eq_filterMap (ss : List SegmentInfo) :
    ∀ (fs : List ProvidedFile), fs.length = ss.length →
      collectScores ss fs = ss.filterMap (fun s => s.deepfake_score) := by
  induction ss with
  | nil => intro fs _; cases fs <;> rfl
  | cons s t ih =>
    intro fs hlen
    cases fs with
    | nil => simp at hlen
    | cons f gs =>
      have hlen' : gs.length = t.length := by simpa using hlen
      simp only [collectScores, List.filterMap_cons]
      cases s.deepfake_score with
      | none => exact ih gs hlen'
      | some q => rw [ih gs hlen']

/-- **C8**: with one provided file per manifest segment, the report's
`average_deepfake_score` is the arithmetic mean over exactly the segments
with a non-null stored score, and null when there are none. -/
theorem verify_average_over_nonnull (H : String → String) (m : SegmentChainManifest)
    (files : List ProvidedFile) (thr : ℚ) (hlen : files.length = m.segments.length) :
    (verify_segment_chain H m files thr).average_deepfake_score =
      (if (m.segments.filterMap (fun s => s.deepfake_score)).isEmpty then none
       else some ((m.segments.filterMap (fun s => s.deepfake_score)).sum /
         ((m.segments.filterMap (fun s => s.deepfake_score)).length : ℚ))) := by
  simp only [verify_segment_chain]
  rw [collectScores_eq_filterMap m.segments files hlen]

/-- Fixture: the two-segment manifest with a score on segment 0 only. -/
def exScoredManifest : SegmentChainManifest :=
  { exManifest with segments := [mkSeg 0 "a" none (some 1), mkSeg 1 "b" (some "a") none] }

/-- Witness for C8: the average over the single non-null score `1` is `1`;
the scoreless segment does not contribute. -/
theorem verify_average_over_nonnull_witness :
    (verify_segment_chain id exScoredManifest [⟨"a", true⟩, ⟨"b", true⟩] 2).average_deepfake_score =
      some 1 := by
  rw [verify_average_over_nonnull id exScoredManifest [⟨"a", true⟩, ⟨"b", true⟩] 2 rfl]
  norm_num [exScoredManifest, mkSeg, List.filterMap_cons]

end C2PA

namespace C2PA

/-! ## C9: the persisted manifest round trip

Modelled from the spec: `save_manifest` writes `manifest.model_dump_json()`
and `load_manifest` parses with `SegmentChainManifest.model_validate_json`
(pydantic, library code outside this repository); the spec calls the pair the
"durable, lossless round-trip representation of the manifest".  The
serializer is embedded at the JSON-value level: every declared pydantic field
is mapped to its JSON value (numbers as exact rationals, `None` as `null`,
datetimes as their ISO strings, the `Any`-typed metadata as the JSON tree
itself), and the parser accepts the canonical serialized shape. -/

/-- `Optional[str]` serialization. -/
def optStr : Option String → JVal
  | none => .null
  | some s => .str s

/-- `Optional[float]` serialization. -/
def optNum : Option ℚ → JVal
  | none => .null
  | some q => .num q

/-- `Optional[Dict[str, Any]]` serialization. -/
def optObj : Option JObj → JVal
  | none => .null
  | some o => .obj o

/-- `Optional[str]` parsing. -/
def decOptStr : JVal → Option (Option String)
  | .null => some none
  | .str s => some (some s)
  | _ => none

/-- `Optional[float]` parsing. -/
def decOptNum : JVal → Option (Option ℚ)
  | .null => some none
  | .num q => some (some q)
  | _ => none

/-- `Optional[Dict[str, Any]]` parsing. -/
def decOptObj : JVal → Option (Option JObj)
  | .null => some none
  | .obj o => some (some o)
  | _ => none

/-- `str` parsing. -/
def decStr : JVal → Option String
  | .str s => some s
  | _ => none

/-- `float` parsing. -/
def decNum : JVal → Option ℚ
  | .num q => some q
  | _ => none

/-- `int` parsing (pydantic rejects a fractional JSON number here). -/
def decInt : JVal → Option Int
  | .num q => if q.den = 1 then some q.num else none
  | _ => none

/-- `bool` parsing. -/
def decBool : JVal → Option Bool
  | .bool b => some b
  | _ => none

/-- `Dict[str, Any]` parsing. -/
def decObj : JVal → Option JObj
  | .obj o => some o
  | _ => none

/-- One `SegmentInfo` as serialized by `model_dump_json`. -/
def encodeSegment (s : SegmentInfo) : JVal :=
  .obj [("segment_id", .num (s.segment_id : ℚ)),
        ("start_time", .num s.start_time),
        ("end_time", .num s.end_time),
        ("duration", .num s.duration),
        ("file_path", .str s.file_path),
        ("file_hash", .str s.file_hash),
        ("c2pa_signature", optStr s.c2pa_signature),
        ("previous_hash", optStr s.previous_hash),
        ("deepfake_score", optNum s.deepfake_score),
        ("deepfake_model", optStr s.deepfake_model),
        ("deepfake_confidence", optNum s.deepfake_confidence),
        ("deepfake_metadata", optObj s.deepfake_metadata),
        ("created_at", .str s.created_at)]


/-- Keyed dictionary lookup used during validation. -/
def getKey (k : String) : JObj → Option JVal
  | [] => none
  | (k', v) :: rest => if k' = k then some v else getKey k rest

/-- One `SegmentInfo` as parsed by `model_validate_json`: each declared
field is looked up by name and validated against its type. -/
def decodeSegment : JVal → Option SegmentInfo
  | .obj o => do
    let segment_id ← (getKey "segment_id" o).bind decInt
    let start_time ← (getKey "start_time" o).bind decNum
    let end_time ← (getKey "end_time" o).bind decNum
    let duration ← (getKey "duration" o).bind decNum
    let file_path ← (getKey "file_path" o).bind decStr
    let file_hash ← (getKey "file_hash" o).bind decStr
    let c2pa_signature ← (getKey "c2pa_signature" o).bind decOptStr
    let previous_hash ← (getKey "previous_hash" o).bind decOptStr
    let deepfake_score ← (getKey "deepfake_score" o).bind decOptNum
    let deepfake_model ← (getKey "deepfake_model" o).bind decOptStr
    let deepfake_confidence ← (getKey "deepfake_confidence" o).bind decOptNum
    let deepfake_metadata ← (getKey "deepfake_metadata" o).bind decOptObj
    let created_at ← (getKey "created_at" o).bind decStr
    some { segment_id, start_time, end_time, duration, file_path, file_hash,
           c2pa_signature, previous_hash, deepfake_score, deepfake_model,
           deepfake_confidence, deepfake_metadata, created_at }
  | _ => none

/-- The segment list as parsed from a JSON array body. -/
def decodeSegs : List JVal → Option (List SegmentInfo)
  | [] => some []
  | v :: vs => do
    let s ← decodeSegment v
    let t ← decodeSegs vs
    some (s :: t)

/-- A JSON array of segments. -/
def decSegArr : JVal → Option (List SegmentInfo)
  | .arr vs => decodeSegs vs
  | _ => none

/-- The manifest as serialized by `model_dump_json`. -/
def encodeManifest (m : SegmentChainManifest) : JVal :=
  .obj [("video_id", .str m.video_id),
        ("original_filename", .str m.original_filename),
        ("total_segments", .num (m.total_segments : ℚ)),
        ("segment_duration", .num m.segment_duration),
        ("total_duration", .num m.total_duration),
        ("master_hash", .str m.master_hash),
        ("chain_valid", .bool m.chain_valid),
        ("segments", .arr (m.segments.map encodeSegment)),
        ("c2pa_manifest_template", .obj m.c2pa_manifest_template),
        ("created_at", .str m.created_at),
        ("processing_version", .str m.processing_version)]

/-- The manifest as parsed by `model_validate_json`. -/
def decodeManifest : JVal → Option SegmentChainManifest
  | .obj o => do
    let video_id ← (getKey "video_id" o).bind decStr
    let original_filename ← (getKey "original_filename" o).bind decStr
    let total_segments ← (getKey "total_segments" o).bind decInt
    let segment_duration ← (getKey "segment_duration" o).bind decNum
    let total_duration ← (getKey "total_duration" o).bind decNum
    let master_hash ← (getKey "master_hash" o).bind decStr
    let chain_valid ← (getKey "chain_valid" o).bind decBool
    let segments ← (getKey "segments" o).bind decSegArr
    let c2pa_manifest_template ← (getKey "c2pa_manifest_template" o).bind decObj
    let created_at ← (getKey "created_at" o).bind decStr
    let processing_version ← (getKey "processing_version" o).bind decStr
    some { video_id, original_filename, total_segments, segment_duration,
           total_duration, master_hash, chain_valid, segments,
           c2pa_manifest_template, created_at, processing_version }
  | _ => none

theorem decInt_intCast (i : Int) : decInt (.num (i : ℚ)) = some i := by
  simp [decInt, Rat.den_intCast, Rat.num_intCast]

theorem decOptStr_optStr (v : Option String) : decOptStr (optStr v) = some v := by
  cases v <;> rfl

theorem decOptNum_optNum (v : Option ℚ) : decOptNum (optNum v) = some v := by
  cases v <;> rfl

theorem decOptObj_optObj (v : Option JObj) : decOptObj (optObj v) = some v := by
  cases v <;> rfl

theorem decodeSegment_encodeSegment (s : SegmentInfo) :
    decodeSegment (encodeSegment s) = some s := by
  simp only [encodeSegment, decodeSegment]
  simp [getKey, decInt_intCast, decOptStr_optStr, decOptNum_optNum,
    decOptObj_optObj, decStr, decNum]

theorem decodeSegs_map_encode (l : List SegmentInfo) :
    decodeSegs (l.map encodeSegment) = some l := by
  induction l with
  | nil => rfl
  | cons s t ih =>
    simp only [List.map_cons, decodeSegs, decodeSegment_encodeSegment, ih]
    rfl

/-- **C9**: parsing the serialized manifest returns it unchanged — the
round trip is lossless field-for-field, including the segment list, nested
metadata and timestamp strings. -/
theorem save_load_roundtrip (m : SegmentChainManifest) :
    decodeManifest (encodeManifest m) = some m := by
  simp only [encodeManifest, decodeManifest]
  simp [getKey, decSegArr, decodeSegs_map_encode, decInt_intCast,
    decStr, decNum, decBool, decObj]

end C2PA
